import Mathlib

/-!
Verification of the blindrop-crypto core: the base64url codec, the
AES-256-GCM encrypt/decrypt wrappers, key import, the atomic Redis
counter scripts (decrement-with-burn, increment-with-limit) and the
result parsers.  Pure functions are shallowly embedded as Lean
functions over `List Nat` byte buffers and `String`s; the Redis store
is modelled as a function from keys to optional entries; the external
Web Crypto AES-GCM primitive is a parameter of the cipher engine.
-/

namespace Blindrop

/-- The typed error taxonomy of `src/errors.ts`, flattened to one
inductive: each constructor is one error class, carrying its message. -/
inductive CryptoErr where
  | cryptoError (msg : String)
  | invalidKey (msg : String)
  | invalidBase64 (msg : String)
  | invalidIV (msg : String)
  | decryptionError (msg : String)
  | payloadTooLarge (msg : String)
  | invalidResult (msg : String)
deriving DecidableEq, Repr

/-! ## Base64 codec

`bufferToBase64Url` / `base64UrlToBuffer` from the crypto module.  The
platform primitives `btoa` / `atob` are modelled byte-exactly: `btoa`
is RFC 4648 base64 with padding, `atob` is the WHATWG forgiving-base64
decoder (remove ASCII whitespace; strip up to two trailing `=` when the
length is a multiple of 4; fail on length ≡ 1 mod 4 or on any character
outside the standard alphabet; decode, discarding leftover bits). -/

/-- The standard base64 alphabet, index `i` holding the character for
sextet value `i`. -/
def stdAlphabet : List Char :=
  [ 'A','B','C','D','E','F','G','H','I','J','K','L','M','N','O','P'
  , 'Q','R','S','T','U','V','W','X','Y','Z','a','b','c','d','e','f'
  , 'g','h','i','j','k','l','m','n','o','p','q','r','s','t','u','v'
  , 'w','x','y','z','0','1','2','3','4','5','6','7','8','9','+','/' ]

/-- The URL-safe alphabet: `+` replaced by `-`, `/` by `_`. -/
def urlAlphabet : List Char :=
  [ 'A','B','C','D','E','F','G','H','I','J','K','L','M','N','O','P'
  , 'Q','R','S','T','U','V','W','X','Y','Z','a','b','c','d','e','f'
  , 'g','h','i','j','k','l','m','n','o','p','q','r','s','t','u','v'
  , 'w','x','y','z','0','1','2','3','4','5','6','7','8','9','-','_' ]

/-- Character for a sextet value in the standard alphabet. -/
def b64CharOf (v : Nat) : Char := stdAlphabet.getD v 'A'

/-- Character for a sextet value in the URL-safe alphabet. -/
def urlCharOf (v : Nat) : Char := urlAlphabet.getD v 'A'

/-- Index of the first occurrence of a character in a list. -/
def lookupIdx : List Char → Char → Option Nat
  | [], _ => none
  | a :: r, c => if a = c then some 0 else (lookupIdx r c).map (· + 1)

/-- Sextet value of a standard-alphabet character; `none` for any
character outside the standard alphabet (this is `atob`'s character
validity check). -/
def decodeB64Char (c : Char) : Option Nat :=
  lookupIdx stdAlphabet c

/-- The substitution of `bufferToBase64Url`, per character: `+` to `-`
and `/` to `_` (the two global regex replaces). -/
def substToUrlChar (c : Char) : Char :=
  if c = '+' then '-' else if c = '/' then '_' else c

/-- The substitution of `base64UrlToBuffer`, per character: `-` to `+`
and `_` to `/` (the two global regex replaces). -/
def substToStdChar (c : Char) : Char :=
  if c = '-' then '+' else if c = '_' then '/' else c

/-- ASCII whitespace, the set removed by forgiving-base64 decode. -/
def isAsciiWs (c : Char) : Bool :=
  c = ' ' || c = Char.ofNat 9 || c = Char.ofNat 10 ||
  c = Char.ofNat 12 || c = Char.ofNat 13

/-- Bytes to sextets: each group of 3 bytes yields 4 sextets; a final
group of 1 or 2 bytes yields 2 or 3 sextets (the bit content of
base64 encoding, before padding). -/
def toSextets : List Nat → List Nat
  | [] => []
  | [a] => [a / 4, a % 4 * 16]
  | [a, b] => [a / 4, a % 4 * 16 + b / 16, b % 16 * 4]
  | a :: b :: c :: rest =>
      a / 4 :: (a % 4 * 16 + b / 16) :: (b % 16 * 4 + c / 64) :: c % 64 ::
        toSextets rest

/-- Sextets to bytes: each group of 4 sextets yields 3 bytes; a final
group of 2 or 3 sextets yields 1 or 2 bytes, leftover bits discarded
(forgiving-base64 decode).  A lone trailing sextet cannot arise (the
decoder rejects length ≡ 1 mod 4) and yields nothing. -/
def fromSextets : List Nat → List Nat
  | [] => []
  | [_] => []
  | [a, b] => [a * 4 + b / 16]
  | [a, b, c] => [a * 4 + b / 16, b % 16 * 16 + c / 4]
  | a :: b :: c :: d :: rest =>
      (a * 4 + b / 16) :: (b % 16 * 16 + c / 4) :: (c % 4 * 64 + d) ::
        fromSextets rest

/-- Padding characters `btoa` appends: to a multiple of 4. -/
def padLen (n : Nat) : Nat := (4 - n % 4) % 4

/-- Model of the platform `btoa`: standard base64 with `=` padding.
The byte-to-character chunking of `bufferToBase64Url` (32 KiB chunks
joined back together) is the identity on the byte sequence and is not
reflected. -/
def btoaM (bytes : List Nat) : List Char :=
  (toSextets bytes).map b64CharOf ++
    List.replicate (padLen (toSextets bytes).length) '='

/-- Strip up to two trailing `=` (step 2 of forgiving-base64 decode). -/
def stripPad2 (l : List Char) : List Char :=
  match l.reverse with
  | c1 :: c2 :: r =>
      if c1 = '=' then (if c2 = '=' then r.reverse else (c2 :: r).reverse) else l
  | [c1] => if c1 = '=' then [] else l
  | [] => l

/-- Look up every character's sextet value; `none` as soon as one
character is outside the standard alphabet (step 4 of
forgiving-base64 decode). -/
def decodeChars : List Char → Option (List Nat)
  | [] => some []
  | c :: r =>
      match decodeB64Char c, decodeChars r with
      | some v, some vs => some (v :: vs)
      | _, _ => none

/-- Step 2 of forgiving-base64 decode: strip trailing padding only
when the length is a multiple of 4. -/
def forgivingStrip (d : List Char) : List Char :=
  if d.length % 4 = 0 then stripPad2 d else d

/-- Steps 3-5 of forgiving-base64 decode: reject length ≡ 1 mod 4,
look up sextets (rejecting non-alphabet characters), assemble bytes. -/
def atobCore (d : List Char) : Option (List Nat) :=
  if d.length % 4 = 1 then none
  else
    match decodeChars d with
    | none => none
    | some sextets => some (fromSextets sextets)

/-- Model of the platform `atob`: the WHATWG forgiving-base64 decode.
Returns the decoded bytes, or `none` where `atob` throws. -/
def atobM (l : List Char) : Option (List Nat) :=
  atobCore (forgivingStrip (l.filter (fun c => !isAsciiWs c)))

/-- Model of `bufferToBase64Url`: `btoa`, then `+`/`/` → `-`/`_`, then strip
trailing `=` padding. -/
def bufferToBase64Url (bytes : List Nat) : String :=
  String.mk (((btoaM bytes).map substToUrlChar).reverse.dropWhile
    (fun c => c = '=')).reverse

/-- The `try { atob } catch { throw InvalidBase64Error }` step of
`base64UrlToBuffer`. -/
def atobOrErr (d : List Char) : Except CryptoErr (List Nat) :=
  match atobM d with
  | none =>
      .error (.invalidBase64 "Invalid base64 string: contains invalid characters")
  | some bytes => .ok bytes

/-- Model of `base64UrlToBuffer`: substitute back to the standard alphabet,
restore padding deterministically from the length mod 4 (2 → `==`,
3 → `=`, 1 → `InvalidBase64Error`), then `atob`; an `atob` failure is
`InvalidBase64Error`.  The final charCode loop of the source converts
the binary string to bytes and is merged into `atobM`. -/
def base64UrlToBuffer (s : String) : Except CryptoErr (List Nat) :=
  let b64 := s.data.map substToStdChar
  let padding := b64.length % 4
  if padding = 1 then
    .error (.invalidBase64 "Invalid base64 string: incorrect length")
  else if padding = 2 then atobOrErr (b64 ++ ['=', '='])
  else if padding = 3 then atobOrErr (b64 ++ ['='])
  else atobOrErr b64

example : bufferToBase64Url [72, 105, 33] = "SGkh" := by decide
example : base64UrlToBuffer "SGkh" = .ok [72, 105, 33] := rfl
example : base64UrlToBuffer "SGk" = .ok [72, 105] := rfl
example : bufferToBase64Url [251, 255] = "-_8" := by decide
example : base64UrlToBuffer "-_8" = .ok [251, 255] := rfl
example : base64UrlToBuffer "+/8=" = .ok [251, 255] := rfl
example : base64UrlToBuffer "A" =
    .error (.invalidBase64 "Invalid base64 string: incorrect length") := rfl
example : base64UrlToBuffer "A!AA" =
    .error (.invalidBase64 "Invalid base64 string: contains invalid characters") := rfl
example : base64UrlToBuffer "AAA " = .ok [0, 0] := rfl

/-! ### Base64 round-trip lemmas -/

theorem decodeB64Char_b64CharOf : ∀ v < 64, decodeB64Char (b64CharOf v) = some v := by
  decide

theorem substToStd_urlCharOf : ∀ v < 64, substToStdChar (urlCharOf v) = b64CharOf v := by
  decide

theorem substToStd_b64CharOf : ∀ v < 64, substToStdChar (b64CharOf v) = b64CharOf v := by
  decide

theorem substToUrl_b64CharOf : ∀ v < 64, substToUrlChar (b64CharOf v) = urlCharOf v := by
  decide

theorem b64CharOf_not_ws : ∀ v < 64, isAsciiWs (b64CharOf v) = false := by decide

theorem b64CharOf_ne_eq : ∀ v < 64, b64CharOf v ≠ '=' := by decide

theorem urlCharOf_ne_eq : ∀ v < 64, urlCharOf v ≠ '=' := by decide

theorem toSextets_lt64 (l : List Nat) (h : ∀ b ∈ l, b < 256) :
    ∀ v ∈ toSextets l, v < 64 := by
  induction l using toSextets.induct with
  | case1 => simp [toSextets]
  | case2 a =>
      have ha := h a (by simp)
      intro v hv
      simp only [toSextets, List.mem_cons, List.not_mem_nil, or_false] at hv
      rcases hv with rfl | rfl <;> omega
  | case3 a b =>
      have ha := h a (by simp)
      have hb := h b (by simp)
      intro v hv
      simp only [toSextets, List.mem_cons, List.not_mem_nil, or_false] at hv
      rcases hv with rfl | rfl | rfl <;> omega
  | case4 a b c rest ih =>
      have ha := h a (by simp)
      have hb := h b (by simp)
      have hc := h c (by simp)
      have ih' := ih (fun x hx => h x (by simp [hx]))
      intro v hv
      simp only [toSextets, List.mem_cons] at hv
      rcases hv with rfl | rfl | rfl | rfl | h' <;>
        first | omega | exact ih' v h'

theorem fromSextets_toSextets (l : List Nat) (h : ∀ b ∈ l, b < 256) :
    fromSextets (toSextets l) = l := by
  induction l using toSextets.induct with
  | case1 => rfl
  | case2 a =>
      have ha := h a (by simp)
      simp only [toSextets, fromSextets, List.cons.injEq, and_true]
      omega
  | case3 a b =>
      have ha := h a (by simp)
      have hb := h b (by simp)
      simp only [toSextets, fromSextets, List.cons.injEq, and_true]
      exact ⟨by omega, by omega⟩
  | case4 a b c rest ih =>
      have ha := h a (by simp)
      have hb := h b (by simp)
      have hc := h c (by simp)
      have ih' := ih (fun x hx => h x (by simp [hx]))
      simp only [toSextets, fromSextets, List.cons.injEq]
      exact ⟨by omega, by omega, by omega, ih'⟩

theorem toSextets_length_mod (l : List Nat) : (toSextets l).length % 4 ≠ 1 := by
  induction l using toSextets.induct with
  | case1 => simp [toSextets]
  | case2 a => simp [toSextets]
  | case3 a b => simp [toSextets]
  | case4 a b c rest ih => simp [toSextets]; omega

theorem decodeChars_map (sx : List Nat) (h : ∀ v ∈ sx, v < 64) :
    decodeChars (sx.map b64CharOf) = some sx := by
  induction sx with
  | nil => rfl
  | cons v vs ih =>
      have hv := h v (by simp)
      have ih' := ih (fun x hx => h x (by simp [hx]))
      simp only [List.map_cons, decodeChars, decodeB64Char_b64CharOf v hv, ih']

theorem stripPad2_of_no_eq (x : List Char) (hx : ∀ c ∈ x, c ≠ '=') :
    stripPad2 x = x := by
  unfold stripPad2
  match hxr : x.reverse with
  | [] => rfl
  | [c1] =>
      have : c1 ∈ x := by rw [← List.mem_reverse, hxr]; simp
      simp [hx c1 this]
  | c1 :: c2 :: r =>
      have : c1 ∈ x := by rw [← List.mem_reverse, hxr]; simp
      simp [hx c1 this]

theorem stripPad2_append (x : List Char) (k : Nat) (hk : k ≤ 2)
    (hx : ∀ c ∈ x, c ≠ '=') :
    stripPad2 (x ++ List.replicate k '=') = x := by
  interval_cases k
  · rw [show List.replicate 0 '=' = ([] : List Char) from rfl, List.append_nil]
    exact stripPad2_of_no_eq x hx
  · unfold stripPad2
    rw [show x ++ List.replicate 1 '=' = x ++ ['='] from rfl, List.reverse_append]
    match hxr : x.reverse with
    | [] =>
        have : x = [] := by simpa using congrArg List.reverse hxr
        simp [this]
    | c2 :: r =>
        have : c2 ∈ x := by rw [← List.mem_reverse, hxr]; simp
        simp only [List.reverse_cons, List.reverse_nil, List.nil_append,
          List.singleton_append]
        rw [if_pos trivial, if_neg (hx c2 this), ← List.reverse_cons, ← hxr,
          List.reverse_reverse]
  · unfold stripPad2
    rw [show x ++ List.replicate 2 '=' = x ++ ['=', '='] from rfl, List.reverse_append]
    simp only [List.reverse_cons, List.reverse_nil, List.nil_append, List.cons_append]
    rw [if_pos trivial, if_pos trivial, List.reverse_reverse]

theorem dropTrailingEq (x : List Char) (k : Nat) (hx : ∀ c ∈ x, c ≠ '=') :
    ((x ++ List.replicate k '=').reverse.dropWhile (fun c => c = '=')).reverse = x := by
  rw [List.reverse_append, List.reverse_replicate]
  induction k with
  | zero =>
      rw [show List.replicate 0 '=' = ([] : List Char) from rfl, List.nil_append]
      match hxr : x.reverse with
      | [] =>
          have : x = [] := by simpa using congrArg List.reverse hxr
          simp [this]
      | c :: r =>
          have : c ∈ x := by rw [← List.mem_reverse, hxr]; simp
          rw [List.dropWhile_cons, if_neg (by simpa using hx c this), ← hxr,
            List.reverse_reverse]
  | succ n ih =>
      rw [List.replicate_succ, List.cons_append, List.dropWhile_cons,
        if_pos (by decide)]
      exact ih

theorem bufferToBase64Url_eq (l : List Nat) (h : ∀ b ∈ l, b < 256) :
    bufferToBase64Url l = String.mk ((toSextets l).map urlCharOf) := by
  have hsx := toSextets_lt64 l h
  have hmap : ((toSextets l).map b64CharOf).map substToUrlChar =
      (toSextets l).map urlCharOf := by
    rw [List.map_map]
    exact List.map_congr_left (fun v hv => substToUrl_b64CharOf v (hsx v hv))
  have hne : ∀ c ∈ (toSextets l).map urlCharOf, c ≠ '=' := by
    intro c hc
    rcases List.mem_map.mp hc with ⟨v, hv, rfl⟩
    exact urlCharOf_ne_eq v (hsx v hv)
  rw [bufferToBase64Url, btoaM, List.map_append, hmap, List.map_replicate,
    show substToUrlChar '=' = '=' from rfl, dropTrailingEq _ _ hne]

theorem atobM_encoded (l : List Nat) (h : ∀ b ∈ l, b < 256) :
    atobM ((toSextets l).map b64CharOf ++
      List.replicate (padLen (toSextets l).length) '=') = some l := by
  have hsx := toSextets_lt64 l h
  have hm1 := toSextets_length_mod l
  have hbody_ne : ∀ c ∈ (toSextets l).map b64CharOf, c ≠ '=' := by
    intro c hc
    rcases List.mem_map.mp hc with ⟨v, hv, rfl⟩
    exact b64CharOf_ne_eq v (hsx v hv)
  have hfilter : ((toSextets l).map b64CharOf ++
      List.replicate (padLen (toSextets l).length) '=').filter
        (fun c => !isAsciiWs c) =
      (toSextets l).map b64CharOf ++
        List.replicate (padLen (toSextets l).length) '=' := by
    rw [List.filter_eq_self]
    intro c hc
    rcases List.mem_append.mp hc with hc | hc
    · rcases List.mem_map.mp hc with ⟨v, hv, rfl⟩
      simp [b64CharOf_not_ws v (hsx v hv)]
    · rw [List.eq_of_mem_replicate hc]
      decide
  have hlen : ((toSextets l).map b64CharOf ++
      List.replicate (padLen (toSextets l).length) '=').length % 4 = 0 := by
    rw [List.length_append, List.length_map, List.length_replicate, padLen]
    omega
  have hk : padLen (toSextets l).length ≤ 2 := by
    rw [padLen]; omega
  rw [atobM, hfilter, forgivingStrip, if_pos hlen,
    stripPad2_append _ _ hk hbody_ne, atobCore, List.length_map,
    if_neg hm1, decodeChars_map _ hsx]
  show some (fromSextets (toSextets l)) = some l
  rw [fromSextets_toSextets l h]

/-- Round trip: decoding an encoded byte buffer restores it exactly. -/
theorem base64UrlToBuffer_roundtrip (l : List Nat) (h : ∀ b ∈ l, b < 256) :
    base64UrlToBuffer (bufferToBase64Url l) = .ok l := by
  have hsx := toSextets_lt64 l h
  have hm1 := toSextets_length_mod l
  rw [bufferToBase64Url_eq l h, base64UrlToBuffer]
  have hdata : (String.mk ((toSextets l).map urlCharOf)).data =
      (toSextets l).map urlCharOf := rfl
  rw [hdata]
  have hmap : ((toSextets l).map urlCharOf).map substToStdChar =
      (toSextets l).map b64CharOf := by
    rw [List.map_map]
    exact List.map_congr_left (fun v hv => substToStd_urlCharOf v (hsx v hv))
  rw [hmap, List.length_map]
  have hpad : padLen (toSextets l).length =
      (4 - (toSextets l).length % 4) % 4 := rfl
  have hab := atobM_encoded l h
  rw [hpad] at hab
  have h4 : (toSextets l).length % 4 = 0 ∨ (toSextets l).length % 4 = 2 ∨
      (toSextets l).length % 4 = 3 := by omega
  rcases h4 with h4 | h4 | h4
  · rw [h4] at hab ⊢
    rw [show List.replicate ((4 - 0) % 4) '=' = ([] : List Char) from rfl,
      List.append_nil] at hab
    norm_num
    simp only [atobOrErr, hab]
  · rw [h4] at hab ⊢
    rw [show List.replicate ((4 - 2) % 4) '=' = ['=', '='] from rfl] at hab
    norm_num
    simp only [atobOrErr, hab]
  · rw [h4] at hab ⊢
    rw [show List.replicate ((4 - 3) % 4) '=' = ['='] from rfl] at hab
    norm_num
    simp only [atobOrErr, hab]

/-- The decoder also accepts the standard (non-URL-safe) alphabet with
its `=` padding: decoding the raw `btoa` output restores the bytes. -/
theorem base64UrlToBuffer_std (l : List Nat) (h : ∀ b ∈ l, b < 256) :
    base64UrlToBuffer (String.mk (btoaM l)) = .ok l := by
  have hsx := toSextets_lt64 l h
  rw [base64UrlToBuffer]
  have hdata : (String.mk (btoaM l)).data = btoaM l := rfl
  rw [hdata, btoaM]
  have hmap : ((toSextets l).map b64CharOf ++
      List.replicate (padLen (toSextets l).length) '=').map substToStdChar =
      (toSextets l).map b64CharOf ++
        List.replicate (padLen (toSextets l).length) '=' := by
    rw [List.map_append, List.map_map, List.map_replicate]
    congr 1
    exact List.map_congr_left (fun v hv => substToStd_b64CharOf v (hsx v hv))
  rw [hmap]
  have hlen : ((toSextets l).map b64CharOf ++
      List.replicate (padLen (toSextets l).length) '=').length % 4 = 0 := by
    rw [List.length_append, List.length_map, List.length_replicate, padLen]
    omega
  rw [hlen]
  norm_num
  simp only [atobOrErr, atobM_encoded l h]

/-! ## UTF-8

Models of the platform `TextEncoder` / `TextDecoder` used by
`encrypt` / `decrypt`: standard UTF-8 over Unicode scalar values.  The
decoder runs on explicit fuel (one unit per decoded character, so the
byte count suffices) and emits U+FFFD on malformed input; the exact
number of bytes skipped per malformed sequence is simplified and is
never reached by the theorems, which only decode valid encodings. -/

/-- UTF-8 encoding of one character (scalar value), 1-4 bytes. -/
def utf8EncodeChar (c : Char) : List Nat :=
  if c.toNat < 0x80 then [c.toNat]
  else if c.toNat < 0x800 then
    [0xC0 + c.toNat / 64, 0x80 + c.toNat % 64]
  else if c.toNat < 0x10000 then
    [0xE0 + c.toNat / 4096, 0x80 + c.toNat / 64 % 64, 0x80 + c.toNat % 64]
  else
    [0xF0 + c.toNat / 262144, 0x80 + c.toNat / 4096 % 64,
      0x80 + c.toNat / 64 % 64, 0x80 + c.toNat % 64]

/-- UTF-8 encoding of a character list. -/
def utf8EncodeList : List Char → List Nat
  | [] => []
  | c :: cs => utf8EncodeChar c ++ utf8EncodeList cs

/-- Model of `TextEncoder.encode`: UTF-8 bytes of a string. -/
def utf8Encode (s : String) : List Nat := utf8EncodeList s.data

/-- The replacement character U+FFFD emitted for malformed input. -/
def replChar : Char := Char.ofNat 0xFFFD

/-- Lower bound for the second byte of a three-byte sequence
(excludes overlong encodings after lead byte `E0`). -/
def v3lo (b0 : Nat) : Nat := if b0 = 0xE0 then 0xA0 else 0x80

/-- Upper bound for the second byte of a three-byte sequence
(excludes surrogates after lead byte `ED`). -/
def v3hi (b0 : Nat) : Nat := if b0 = 0xED then 0xA0 else 0xC0

/-- Lower bound for the second byte of a four-byte sequence
(excludes overlong encodings after lead byte `F0`). -/
def v4lo (b0 : Nat) : Nat := if b0 = 0xF0 then 0x90 else 0x80

/-- Upper bound for the second byte of a four-byte sequence
(excludes values above U+10FFFF after lead byte `F4`). -/
def v4hi (b0 : Nat) : Nat := if b0 = 0xF4 then 0x90 else 0xC0

/-- Fuel-indexed UTF-8 decoder.  Fuel is consumed once per produced
character, so fuel equal to the byte count always suffices.
Continuation bytes are read by lookahead with default `0` (which is
never a valid continuation, so truncated sequences are malformed). -/
def utf8DecGo : Nat → List Nat → List Char
  | 0, _ => []
  | _ + 1, [] => []
  | f + 1, b0 :: t =>
    if b0 < 0x80 then Char.ofNat b0 :: utf8DecGo f t
    else if b0 < 0xC2 then replChar :: utf8DecGo f t
    else if b0 < 0xE0 then
      if 0x80 ≤ t.getD 0 0 ∧ t.getD 0 0 < 0xC0 then
        Char.ofNat ((b0 - 0xC0) * 64 + (t.getD 0 0 - 0x80)) ::
          utf8DecGo f (t.drop 1)
      else replChar :: utf8DecGo f t
    else if b0 < 0xF0 then
      if (v3lo b0 ≤ t.getD 0 0 ∧ t.getD 0 0 < v3hi b0) ∧
          (0x80 ≤ t.getD 1 0 ∧ t.getD 1 0 < 0xC0) then
        Char.ofNat ((b0 - 0xE0) * 4096 + (t.getD 0 0 - 0x80) * 64 +
            (t.getD 1 0 - 0x80)) :: utf8DecGo f (t.drop 2)
      else replChar :: utf8DecGo f t
    else if b0 < 0xF5 then
      if (v4lo b0 ≤ t.getD 0 0 ∧ t.getD 0 0 < v4hi b0) ∧
          (0x80 ≤ t.getD 1 0 ∧ t.getD 1 0 < 0xC0) ∧
          (0x80 ≤ t.getD 2 0 ∧ t.getD 2 0 < 0xC0) then
        Char.ofNat ((b0 - 0xF0) * 262144 + (t.getD 0 0 - 0x80) * 4096 +
            (t.getD 1 0 - 0x80) * 64 + (t.getD 2 0 - 0x80)) ::
          utf8DecGo f (t.drop 3)
      else replChar :: utf8DecGo f t
    else replChar :: utf8DecGo f t

/-- Model of `TextDecoder.decode`: UTF-8 decoding of a byte buffer. -/
def utf8DecodeStr (l : List Nat) : String := String.mk (utf8DecGo l.length l)

example : utf8Encode "Hi é€𝄞" = utf8Encode "Hi " ++ [0xC3, 0xA9, 0xE2, 0x82,
  0xAC, 0xF0, 0x9D, 0x84, 0x9E] := by decide
example : utf8DecodeStr (utf8Encode "Hi é€𝄞") = "Hi é€𝄞" := by decide

theorem utf8DecGo_encodeChar (c : Char) (f : Nat) (rest : List Nat) :
    utf8DecGo (f + 1) (utf8EncodeChar c ++ rest) = c :: utf8DecGo f rest := by
  have hval : c.toNat < 0xd800 ∨ (0xdfff < c.toNat ∧ c.toNat < 0x110000) :=
    c.valid
  by_cases h1 : c.toNat < 0x80
  · have henc : utf8EncodeChar c = [c.toNat] := by
      rw [utf8EncodeChar, if_pos h1]
    rw [henc, List.singleton_append, utf8DecGo, if_pos h1, Char.ofNat_toNat]
  · by_cases h2 : c.toNat < 0x800
    · have henc : utf8EncodeChar c = [0xC0 + c.toNat / 64, 0x80 + c.toNat % 64] := by
        rw [utf8EncodeChar, if_neg h1, if_pos h2]
      rw [henc, List.cons_append, List.singleton_append, utf8DecGo]
      simp only [List.getD_cons_zero, List.getD_cons_succ, List.drop_succ_cons,
        List.drop_zero]
      rw [if_neg (by omega), if_neg (by omega), if_pos (by omega),
        if_pos (by omega)]
      have hv : (0xC0 + c.toNat / 64 - 0xC0) * 64 + (0x80 + c.toNat % 64 - 0x80) =
          c.toNat := by omega
      rw [hv, Char.ofNat_toNat]
    · by_cases h3 : c.toNat < 0x10000
      · have henc : utf8EncodeChar c = [0xE0 + c.toNat / 4096,
            0x80 + c.toNat / 64 % 64, 0x80 + c.toNat % 64] := by
          rw [utf8EncodeChar, if_neg h1, if_neg h2, if_pos h3]
        have hlo : v3lo (0xE0 + c.toNat / 4096) ≤ 0x80 + c.toNat / 64 % 64 := by
          rw [v3lo]
          by_cases he : 0xE0 + c.toNat / 4096 = 0xE0
          · rw [if_pos he]; omega
          · rw [if_neg he]; omega
        have hhi : 0x80 + c.toNat / 64 % 64 < v3hi (0xE0 + c.toNat / 4096) := by
          rw [v3hi]
          by_cases he : 0xE0 + c.toNat / 4096 = 0xED
          · rw [if_pos he]; omega
          · rw [if_neg he]; omega
        rw [henc, List.cons_append, List.cons_append, List.singleton_append,
          utf8DecGo]
        simp only [List.getD_cons_zero, List.getD_cons_succ, List.drop_succ_cons,
          List.drop_zero]
        rw [if_neg (by omega), if_neg (by omega), if_neg (by omega),
          if_pos (by omega), if_pos ⟨⟨hlo, hhi⟩, by omega⟩]
        have hv : (0xE0 + c.toNat / 4096 - 0xE0) * 4096 +
            (0x80 + c.toNat / 64 % 64 - 0x80) * 64 + (0x80 + c.toNat % 64 - 0x80) =
            c.toNat := by omega
        rw [hv, Char.ofNat_toNat]
      · have h4 : c.toNat < 0x110000 := by omega
        have henc : utf8EncodeChar c = [0xF0 + c.toNat / 262144,
            0x80 + c.toNat / 4096 % 64, 0x80 + c.toNat / 64 % 64,
            0x80 + c.toNat % 64] := by
          rw [utf8EncodeChar, if_neg h1, if_neg h2, if_neg h3]
        have hlo : v4lo (0xF0 + c.toNat / 262144) ≤ 0x80 + c.toNat / 4096 % 64 := by
          rw [v4lo]
          by_cases he : 0xF0 + c.toNat / 262144 = 0xF0
          · rw [if_pos he]; omega
          · rw [if_neg he]; omega
        have hhi : 0x80 + c.toNat / 4096 % 64 < v4hi (0xF0 + c.toNat / 262144) := by
          rw [v4hi]
          by_cases he : 0xF0 + c.toNat / 262144 = 0xF4
          · rw [if_pos he]; omega
          · rw [if_neg he]; omega
        rw [henc, List.cons_append, List.cons_append, List.cons_append,
          List.singleton_append, utf8DecGo]
        simp only [List.getD_cons_zero, List.getD_cons_succ, List.drop_succ_cons,
          List.drop_zero]
        rw [if_neg (by omega), if_neg (by omega), if_neg (by omega),
          if_neg (by omega), if_pos (by omega),
          if_pos ⟨⟨hlo, hhi⟩, ⟨by omega, by omega⟩, by omega, by omega⟩]
        have hv : (0xF0 + c.toNat / 262144 - 0xF0) * 262144 +
            (0x80 + c.toNat / 4096 % 64 - 0x80) * 4096 +
            (0x80 + c.toNat / 64 % 64 - 0x80) * 64 +
            (0x80 + c.toNat % 64 - 0x80) = c.toNat := by omega
        rw [hv, Char.ofNat_toNat]

theorem utf8DecGo_encodeList (cs : List Char) (f : Nat) (hf : cs.length ≤ f) :
    utf8DecGo f (utf8EncodeList cs) = cs := by
  induction cs generalizing f with
  | nil => cases f <;> rfl
  | cons c cs ih =>
      cases f with
      | zero => simp at hf
      | succ f =>
          rw [utf8EncodeList, utf8DecGo_encodeChar,
            ih f (by simpa using Nat.le_of_succ_le_succ (by simpa using hf))]

theorem utf8EncodeChar_length_pos (c : Char) : 1 ≤ (utf8EncodeChar c).length := by
  rw [utf8EncodeChar]
  split
  · simp
  · split
    · simp
    · split <;> simp

theorem utf8EncodeList_length (cs : List Char) :
    cs.length ≤ (utf8EncodeList cs).length := by
  induction cs with
  | nil => simp [utf8EncodeList]
  | cons c cs ih =>
      rw [utf8EncodeList, List.length_append, List.length_cons]
      have := utf8EncodeChar_length_pos c
      omega

/-- UTF-8 round trip: decoding an encoded string restores it exactly. -/
theorem utf8DecodeStr_utf8Encode (s : String) :
    utf8DecodeStr (utf8Encode s) = s := by
  rw [utf8DecodeStr, utf8Encode,
    utf8DecGo_encodeList s.data _ (utf8EncodeList_length s.data)]

/-! ## Cipher engine

`encrypt` / `decrypt` / `base64ToKey` from the crypto module.  The
ambient Web Crypto AES-GCM primitive (`crypto.subtle`) is external to
the repository and enters as an explicit `SubtleCrypto` parameter; the
fresh random IV drawn by `crypto.getRandomValues` enters as an explicit
argument.  Keys are represented by their raw bytes (`importKey` /
`CryptoKey` wrapping is the identity on key material). -/

def KEY_LENGTH : Nat := 256

def IV_LENGTH : Nat := 12

def KEY_BYTES : Nat := KEY_LENGTH / 8

/-- Default maximum plaintext size: 1 MB. -/
def MAX_PLAINTEXT_BYTES : Nat := 1024 * 1024

/-- The `EncryptedData` wire shape. -/
structure EncryptedData where
  version : Nat
  ciphertext : String
  iv : String
deriving DecidableEq, Repr

/-- The external AES-256-GCM primitive: encryption (which the source
wraps in try/catch, so failure is possible) and decryption (failure is
an authentication error). -/
structure SubtleCrypto where
  encryptGcm : List Nat → List Nat → List Nat → Option (List Nat)
  decryptGcm : List Nat → List Nat → List Nat → Option (List Nat)

/-- Model of `encrypt(plaintext, key, options)`.  `iv` is the buffer returned by
`crypto.getRandomValues(new Uint8Array(IV_LENGTH))`; `options` is the
optional `maxBytes` override. -/
def encrypt (C : SubtleCrypto) (plaintext : String) (key : List Nat)
    (iv : List Nat) (options : Option Nat) : Except CryptoErr EncryptedData :=
  let maxBytes := options.getD MAX_PLAINTEXT_BYTES
  let data := utf8Encode plaintext
  if data.length > maxBytes then
    .error (.payloadTooLarge ("Plaintext exceeds maximum size: " ++
      toString data.length ++ " > " ++ toString maxBytes ++ " bytes"))
  else
    match C.encryptGcm key iv data with
    | none => .error (.cryptoError "Encryption failed")
    | some ct =>
        .ok { version := 1, ciphertext := bufferToBase64Url ct,
              iv := bufferToBase64Url iv }

/-- Model of `decrypt(ciphertext, iv, key)`. -/
def decrypt (C : SubtleCrypto) (ciphertext iv : String) (key : List Nat) :
    Except CryptoErr String :=
  match base64UrlToBuffer ciphertext with
  | .error e => .error e
  | .ok ciphertextArray =>
    match base64UrlToBuffer iv with
    | .error e => .error e
    | .ok ivArray =>
      if ivArray.length ≠ IV_LENGTH then
        .error (.invalidIV ("Invalid IV length: expected " ++
          toString IV_LENGTH ++ " bytes, got " ++ toString ivArray.length))
      else
        match C.decryptGcm key ivArray ciphertextArray with
        | none =>
            .error (.decryptionError
              "Decryption failed: authentication tag mismatch or corrupted data")
        | some pt => .ok (utf8DecodeStr pt)

/-- Model of `base64ToKey(base64)`: key import, returning the raw key bytes
(`crypto.subtle.importKey` wraps them without changing them). -/
def base64ToKey (base64 : String) : Except CryptoErr (List Nat) :=
  if base64 = "" then
    .error (.invalidKey "Invalid key: expected non-empty string")
  else
    match base64UrlToBuffer base64 with
    | .error e => .error e
    | .ok keyArray =>
      if keyArray.length ≠ KEY_BYTES then
        .error (.invalidKey ("Invalid key length: expected " ++
          toString KEY_BYTES ++ " bytes, got " ++ toString keyArray.length))
      else .ok keyArray

/-- A trivially invertible cipher used only to instantiate witnesses. -/
def idSubtle : SubtleCrypto where
  encryptGcm := fun _ _ d => some d
  decryptGcm := fun _ _ c => some c

/-- Claim C1: for every plaintext string whose UTF-8 encoding is within
the size limit (so `encrypt` returns a result) and every key, decrypting
the ciphertext and iv produced by `encrypt` with the same key returns
exactly the plaintext.  The external AES-GCM primitive is assumed to
invert itself on this call (`hct`, `hdec`) and to produce bytes
(`hctB`); the IV is the 12-byte random buffer drawn by `encrypt`
(`hivlen`, `hivB`). -/
theorem encrypt_decrypt_roundtrip
    (C : SubtleCrypto) (p : String) (key iv ct : List Nat) (ed : EncryptedData)
    (hivlen : iv.length = 12) (hivB : ∀ b ∈ iv, b < 256)
    (hct : C.encryptGcm key iv (utf8Encode p) = some ct)
    (hctB : ∀ b ∈ ct, b < 256)
    (hdec : C.decryptGcm key iv ct = some (utf8Encode p))
    (henc : encrypt C p key iv none = .ok ed) :
    decrypt C ed.ciphertext ed.iv key = .ok p := by
  rw [encrypt] at henc
  rw [hct] at henc
  split at henc
  · exact absurd henc (by simp)
  · simp only [Except.ok.injEq] at henc
    subst henc
    rw [decrypt]
    rw [base64UrlToBuffer_roundtrip ct hctB, base64UrlToBuffer_roundtrip iv hivB]
    simp only [hivlen, IV_LENGTH, ne_eq, not_true_eq_false, if_neg, hdec,
      reduceIte, not_false_eq_true]
    rw [utf8DecodeStr_utf8Encode]

/-- Witness for C1 at a concrete plaintext, key and IV. -/
theorem encrypt_decrypt_roundtrip_witness :
    decrypt idSubtle (bufferToBase64Url (utf8Encode "Hi!"))
      (bufferToBase64Url (List.replicate 12 0)) [] = .ok "Hi!" :=
  encrypt_decrypt_roundtrip idSubtle "Hi!" [] (List.replicate 12 0)
    (utf8Encode "Hi!")
    ⟨1, bufferToBase64Url (utf8Encode "Hi!"),
      bufferToBase64Url (List.replicate 12 0)⟩
    (by decide) (by decide) rfl (by decide) rfl rfl

/-- Does a cipher-engine result carry `PayloadTooLargeError`? -/
def isPayloadErr : Except CryptoErr EncryptedData → Prop
  | .error (.payloadTooLarge _) => True
  | _ => False

/-- Claim C7: `encrypt` raises `PayloadTooLargeError` exactly when the
UTF-8 byte length of the plaintext exceeds `maxBytes` (1 MiB = 1048576
bytes when no option is given), and the error message states the
actual size and the limit. -/
theorem encrypt_payload_limit (C : SubtleCrypto) (p : String)
    (key iv : List Nat) (options : Option Nat) :
    MAX_PLAINTEXT_BYTES = 1048576 ∧
    (isPayloadErr (encrypt C p key iv options) ↔
      options.getD MAX_PLAINTEXT_BYTES < (utf8Encode p).length) ∧
    (options.getD MAX_PLAINTEXT_BYTES < (utf8Encode p).length →
      encrypt C p key iv options = .error (.payloadTooLarge
        ("Plaintext exceeds maximum size: " ++
          toString (utf8Encode p).length ++ " > " ++
          toString (options.getD MAX_PLAINTEXT_BYTES) ++ " bytes"))) := by
  refine ⟨rfl, ?_, ?_⟩
  · rw [encrypt]
    by_cases h : (utf8Encode p).length > options.getD MAX_PLAINTEXT_BYTES
    · rw [if_pos h]
      simp only [isPayloadErr, true_iff]
      exact h
    · rw [if_neg h]
      constructor
      · intro hpe
        exfalso
        rcases hM : C.encryptGcm key iv (utf8Encode p) with _ | ct <;>
          rw [hM] at hpe <;> exact hpe
      · intro hlt
        exact absurd hlt h
  · intro hlt
    rw [encrypt, if_pos (by exact hlt)]

/-- Witness for C7: with `maxBytes := 3`, a 3-byte plaintext does not
raise `PayloadTooLargeError` and a 4-byte plaintext does. -/
theorem encrypt_payload_limit_witness :
    isPayloadErr (encrypt idSubtle "abcd" [] (List.replicate 12 0) (some 3)) ∧
    ¬ isPayloadErr (encrypt idSubtle "abc" [] (List.replicate 12 0) (some 3)) :=
  ⟨(encrypt_payload_limit idSubtle "abcd" [] (List.replicate 12 0)
      (some 3)).2.1.mpr (by decide),
   fun h => absurd ((encrypt_payload_limit idSubtle "abc" []
      (List.replicate 12 0) (some 3)).2.1.mp h) (by decide)⟩

/-- Does a key-import result carry `InvalidKeyError`? -/
def isInvalidKeyR (r : Except CryptoErr (List Nat)) : Prop :=
  match r with
  | .error (.invalidKey _) => True
  | _ => False

/-- Does a decode or key-import result carry `InvalidBase64Error`? -/
def isInvalidB64R (r : Except CryptoErr (List Nat)) : Prop :=
  match r with
  | .error (.invalidBase64 _) => True
  | _ => False

/-- Every `atobOrErr` failure is an `InvalidBase64Error`. -/
theorem atobOrErr_error_shape (d : List Char) (e : CryptoErr)
    (h : atobOrErr d = .error e) : ∃ m, e = .invalidBase64 m := by
  rcases hm : atobM d with _ | b
  · simp only [atobOrErr, hm] at h
    injection h with h2
    exact ⟨_, h2.symm⟩
  · simp only [atobOrErr, hm] at h
    exact absurd h (by simp)

/-- Every `base64UrlToBuffer` failure is an `InvalidBase64Error`. -/
theorem base64UrlToBuffer_error_shape (s : String) (e : CryptoErr)
    (h : base64UrlToBuffer s = .error e) : ∃ m, e = .invalidBase64 m := by
  rw [base64UrlToBuffer] at h
  split at h
  · injection h with h2
    exact ⟨_, h2.symm⟩
  · split at h
    · exact atobOrErr_error_shape _ _ h
    · split at h
      · exact atobOrErr_error_shape _ _ h
      · exact atobOrErr_error_shape _ _ h

/-- Claim C9: `base64ToKey` raises `InvalidKeyError` exactly when the
input is empty or decodes to a byte length other than 32 (in
particular for 16-byte and 64-byte decoded inputs), and raises
`InvalidBase64Error` exactly when the input is nonempty and the base64
decoding itself fails.  (The source's `typeof base64 !== "string"`
branch is unrepresentable in this typed embedding, where the argument
is always a string.)  `KEY_BYTES = 32` is recorded alongside. -/
theorem base64ToKey_spec (s : String) :
    KEY_BYTES = 32 ∧
    (isInvalidKeyR (base64ToKey s) ↔
      s = "" ∨ ∃ b, base64UrlToBuffer s = .ok b ∧ b.length ≠ 32) ∧
    (isInvalidB64R (base64ToKey s) ↔
      s ≠ "" ∧ ∃ m, base64UrlToBuffer s =
        .error (.invalidBase64 m)) ∧
    (∀ b, base64UrlToBuffer s = .ok b → b.length = 16 ∨ b.length = 64 →
      isInvalidKeyR (base64ToKey s)) := by
  refine ⟨rfl, ?_, ?_, ?_⟩
  · by_cases hs : s = ""
    · subst hs
      simp [base64ToKey, isInvalidKeyR]
    · rcases hb : base64UrlToBuffer s with e | b
      · rcases base64UrlToBuffer_error_shape s e hb with ⟨m, rfl⟩
        simp only [base64ToKey, if_neg hs, hb, isInvalidKeyR]
        constructor
        · intro h; exact h.elim
        · rintro (rfl | ⟨b, hb2, _⟩)
          · exact absurd rfl hs
          · exact absurd hb2 (by simp)
      · by_cases hl : b.length = KEY_BYTES
        · simp only [base64ToKey, if_neg hs, hb, if_neg (by simp [hl] : ¬ b.length ≠ KEY_BYTES),
            isInvalidKeyR]
          constructor
          · intro h; exact h.elim
          · rintro (rfl | ⟨b2, hb2, hne⟩)
            · exact absurd rfl hs
            · simp only [Except.ok.injEq] at hb2
              subst hb2
              exact absurd hl (by simpa [KEY_BYTES, KEY_LENGTH] using hne)
        · simp only [base64ToKey, if_neg hs, hb, if_pos (by simpa using hl),
            isInvalidKeyR, true_iff]
          exact Or.inr ⟨b, rfl, by simpa [KEY_BYTES, KEY_LENGTH] using hl⟩
  · by_cases hs : s = ""
    · subst hs
      simp [base64ToKey, isInvalidB64R]
    · rcases hb : base64UrlToBuffer s with e | b
      · rcases base64UrlToBuffer_error_shape s e hb with ⟨m, rfl⟩
        simp only [base64ToKey, if_neg hs, hb, isInvalidB64R]
        exact ⟨fun _ => ⟨hs, m, rfl⟩, fun _ => trivial⟩
      · by_cases hl : b.length = KEY_BYTES
        · simp only [base64ToKey, if_neg hs, hb,
            if_neg (by simp [hl] : ¬ b.length ≠ KEY_BYTES), isInvalidB64R]
          constructor
          · intro h; exact h.elim
          · rintro ⟨_, m, hm⟩
            exact absurd hm (by simp)
        · simp only [base64ToKey, if_neg hs, hb, if_pos (by simpa using hl),
            isInvalidB64R]
          constructor
          · intro h; exact h.elim
          · rintro ⟨_, m, hm⟩
            exact absurd hm (by simp)
  · intro b hb hlen
    have hs : s ≠ "" := by
      intro hs
      subst hs
      have h0 : base64UrlToBuffer "" = .ok [] := rfl
      rw [h0] at hb
      simp only [Except.ok.injEq] at hb
      subst hb
      rcases hlen with h | h <;> simp at h
    simp only [base64ToKey, if_neg hs, hb,
      if_pos (by rcases hlen with h | h <;> rw [h] <;> decide : b.length ≠ KEY_BYTES),
      isInvalidKeyR]

/-- Witness for C9: a 22-character input decoding to 16 bytes raises
`InvalidKeyError`. -/
theorem base64ToKey_spec_witness :
    isInvalidKeyR (base64ToKey "AAAAAAAAAAAAAAAAAAAAAA") :=
  (base64ToKey_spec "AAAAAAAAAAAAAAAAAAAAAA").2.2.2 (List.replicate 16 0)
    rfl (Or.inl (by decide))

/-! ## The codec's handling of arbitrary inputs (C6) -/

theorem lookupIdx_eq_none (l : List Char) (c : Char) (h : c ∉ l) :
    lookupIdx l c = none := by
  induction l with
  | nil => rfl
  | cons a r ih =>
      rw [lookupIdx,
        if_neg (by intro he; subst he; exact h (List.mem_cons_self a r)),
        ih (fun hm => h (List.mem_cons_of_mem a hm))]
      rfl

theorem decodeB64Char_eq_none (c : Char) (h : c ∉ stdAlphabet) :
    decodeB64Char c = none :=
  lookupIdx_eq_none stdAlphabet c h

theorem decodeChars_none (d : List Char) (c : Char) (hc : c ∈ d)
    (hn : decodeB64Char c = none) : decodeChars d = none := by
  induction d with
  | nil => simp at hc
  | cons a r ih =>
      rcases List.mem_cons.mp hc with rfl | hc2
      · simp only [decodeChars, hn]
      · rcases h : decodeB64Char a with _ | v <;>
          simp only [decodeChars, ih hc2, h]

theorem mem_stripPad2 (l : List Char) (c : Char) (hc : c ∈ l) (hne : c ≠ '=') :
    c ∈ stripPad2 l := by
  rcases hr : l.reverse with _ | ⟨c1, r1⟩
  · simp only [stripPad2, hr]
    exact hc
  · rcases r1 with _ | ⟨c2, r⟩
    all_goals simp only [stripPad2, hr]
    · have hl : l = [c1] := by simpa using congrArg List.reverse hr
      by_cases h1 : c1 = '='
      · exfalso
        rw [hl] at hc
        simp only [List.mem_singleton] at hc
        exact hne (hc.trans h1)
      · rw [if_neg h1]
        exact hc
    ·
        have hl : l = r.reverse ++ [c2, c1] := by
          have h2 := congrArg List.reverse hr
          rw [List.reverse_reverse] at h2
          rw [h2]
          simp
        by_cases h1 : c1 = '='
        · rw [if_pos h1]
          by_cases h2 : c2 = '='
          · rw [if_pos h2]
            rw [hl] at hc
            rcases List.mem_append.mp hc with h | h
            · simpa using h
            · exfalso
              simp only [List.mem_cons, List.mem_singleton, List.not_mem_nil,
                or_false] at h
              rcases h with rfl | rfl
              · exact hne h2
              · exact hne h1
          · rw [if_neg h2, List.reverse_cons]
            rw [hl] at hc
            rcases List.mem_append.mp hc with h | h
            · exact List.mem_append.mpr (Or.inl h)
            · simp only [List.mem_cons, List.mem_singleton, List.not_mem_nil,
                or_false] at h
              rcases h with rfl | rfl
              · exact List.mem_append.mpr (Or.inr (by simp))
              · exact absurd h1 hne
        · rw [if_neg h1]
          exact hc

theorem atobM_none_of_bad (d : List Char) (c : Char) (hc : c ∈ d)
    (hstd : c ∉ stdAlphabet) (hws : isAsciiWs c = false) (hne : c ≠ '=') :
    atobM d = none := by
  rw [atobM]
  have h1 : c ∈ d.filter (fun x => !isAsciiWs x) :=
    List.mem_filter.mpr ⟨hc, by simp [hws]⟩
  have h2 : c ∈ forgivingStrip (d.filter (fun x => !isAsciiWs x)) := by
    rw [forgivingStrip]
    split
    · exact mem_stripPad2 _ c h1 hne
    · exact h1
  rw [atobCore]
  split
  · rfl
  · rw [decodeChars_none _ c h2 (decodeB64Char_eq_none c hstd)]

/-- Claim C6 (amended): `base64UrlToBuffer` restores padding
deterministically from the input length mod 4 (2 → `==`, 3 → `=`,
0 → none), raises `InvalidBase64Error` for every string whose length
mod 4 equals 1, raises `InvalidBase64Error` for every string
containing a character outside the base64/base64url alphabets other
than ASCII whitespace and `=` (the underlying forgiving decoder strips
ASCII whitespace and accepts well-placed padding), and accepts both
the URL-safe and the standard alphabet as input. -/
theorem base64UrlToBuffer_spec :
    (∀ s : String,
      (s.data.length % 4 = 2 →
        base64UrlToBuffer s =
          atobOrErr (s.data.map substToStdChar ++ ['=', '='])) ∧
      (s.data.length % 4 = 3 →
        base64UrlToBuffer s =
          atobOrErr (s.data.map substToStdChar ++ ['='])) ∧
      (s.data.length % 4 = 0 →
        base64UrlToBuffer s = atobOrErr (s.data.map substToStdChar)) ∧
      (s.data.length % 4 = 1 →
        base64UrlToBuffer s =
          .error (.invalidBase64 "Invalid base64 string: incorrect length")) ∧
      (∀ c ∈ s.data, c ∉ stdAlphabet → c ∉ urlAlphabet →
        isAsciiWs c = false → c ≠ '=' →
        ∃ m, base64UrlToBuffer s = .error (.invalidBase64 m))) ∧
    (∀ l : List Nat, (∀ b ∈ l, b < 256) →
      base64UrlToBuffer (bufferToBase64Url l) = .ok l ∧
      base64UrlToBuffer (String.mk (btoaM l)) = .ok l) := by
  constructor
  · intro s
    refine ⟨?_, ?_, ?_, ?_, ?_⟩
    · intro h
      rw [base64UrlToBuffer, List.length_map, h]
      norm_num
    · intro h
      rw [base64UrlToBuffer, List.length_map, h]
      norm_num
    · intro h
      rw [base64UrlToBuffer, List.length_map, h]
      norm_num
    · intro h
      rw [base64UrlToBuffer, List.length_map, h]
      norm_num
    · intro c hc hstd hurl hws hne
      have hsubst : substToStdChar c = c := by
        rw [substToStdChar, if_neg, if_neg]
        · intro he
          exact hurl (he ▸ (by decide : '_' ∈ urlAlphabet))
        · intro he
          exact hurl (he ▸ (by decide : '-' ∈ urlAlphabet))
      have hmem : c ∈ s.data.map substToStdChar :=
        List.mem_map.mpr ⟨c, hc, hsubst⟩
      have hbad : ∀ d : List Char, c ∈ d → atobOrErr d =
          .error (.invalidBase64
            "Invalid base64 string: contains invalid characters") := by
        intro d hd
        simp only [atobOrErr, atobM_none_of_bad d c hd hstd hws hne]
      have h4 : s.data.length % 4 = 0 ∨ s.data.length % 4 = 1 ∨
          s.data.length % 4 = 2 ∨ s.data.length % 4 = 3 := by omega
      rcases h4 with h | h | h | h
      · refine ⟨"Invalid base64 string: contains invalid characters", ?_⟩
        rw [base64UrlToBuffer, List.length_map, h]
        norm_num
        exact hbad _ hmem
      · refine ⟨"Invalid base64 string: incorrect length", ?_⟩
        rw [base64UrlToBuffer, List.length_map, h]
        norm_num
      · refine ⟨"Invalid base64 string: contains invalid characters", ?_⟩
        rw [base64UrlToBuffer, List.length_map, h]
        norm_num
        exact hbad _ (List.mem_append.mpr (Or.inl hmem))
      · refine ⟨"Invalid base64 string: contains invalid characters", ?_⟩
        rw [base64UrlToBuffer, List.length_map, h]
        norm_num
        exact hbad _ (List.mem_append.mpr (Or.inl hmem))
  · intro l h
    exact ⟨base64UrlToBuffer_roundtrip l h, base64UrlToBuffer_std l h⟩

/-- Witness for C6 at concrete inputs: padding restoration for a
length-2 input, and rejection of a string containing `~`. -/
theorem base64UrlToBuffer_spec_witness :
    base64UrlToBuffer "AB" =
      atobOrErr (("AB" : String).data.map substToStdChar ++ ['=', '=']) ∧
    (∃ m, base64UrlToBuffer "A~AA" = .error (.invalidBase64 m)) :=
  ⟨(base64UrlToBuffer_spec.1 "AB").1 (by decide),
   (base64UrlToBuffer_spec.1 "A~AA").2.2.2.2 '~' (by decide) (by decide)
     (by decide) (by decide) (by decide)⟩

/-- Counterexample to C6 as stated: `"AAA "` contains a space, which
is outside both base64 alphabets, yet decoding succeeds (the
underlying `atob` strips ASCII whitespace per forgiving-base64)
rather than raising `InvalidBase64Error`. -/
theorem base64UrlToBuffer_ws_counterexample :
    (' ' ∈ ("AAA " : String).data ∧ ' ' ∉ stdAlphabet ∧ ' ' ∉ urlAlphabet) ∧
    base64UrlToBuffer "AAA " = .ok [0, 0] :=
  ⟨by decide, rfl⟩

/-! ## JavaScript values and JSON parsing

The result parser receives an arbitrary JavaScript value from the
Redis client transport.  `RVal` models the relevant value universe;
numbers are modelled as integers (the protocol only carries integer
counts; fractional JSON numbers are outside the model).  `jsonParse`
models `JSON.parse` over this universe (string escapes `\u` excluded;
the integer-literal number grammar is slightly more lenient than JSON
about leading zeros, which does not change any observable result of
the parsers built on it, since strings JSON rejects fall through to
the same `parseInt` value).  The parser runs on fuel; two units per
input character always suffice. -/

inductive RVal where
  | vnull
  | vundef
  | vbool (b : Bool)
  | vnum (n : Int)
  | vstr (s : String)
  | varr (elems : List RVal)
  | vobj (fields : List (String × RVal))

/-- JSON whitespace. -/
def isJsonWs (c : Char) : Bool :=
  c = ' ' || c = Char.ofNat 9 || c = Char.ofNat 10 || c = Char.ofNat 13

/-- Skip leading JSON whitespace. -/
def skipWs (l : List Char) : List Char := l.dropWhile isJsonWs

/-- Single-character string escapes. -/
def unescChar (e : Char) : Option Char :=
  if e = '"' then some '"'
  else if e = '\\' then some '\\'
  else if e = '/' then some '/'
  else if e = 'b' then some (Char.ofNat 8)
  else if e = 'f' then some (Char.ofNat 12)
  else if e = 'n' then some (Char.ofNat 10)
  else if e = 'r' then some (Char.ofNat 13)
  else if e = 't' then some (Char.ofNat 9)
  else none

/-- Parse the body of a string literal after the opening quote, up to
and including the closing quote; returns the content and the rest. -/
def parseStrAux : List Char → Option (List Char × List Char)
  | [] => none
  | c :: r =>
      if c = '"' then some ([], r)
      else if c = '\\' then
        match r with
        | [] => none
        | e :: r2 =>
            match unescChar e with
            | none => none
            | some ch =>
                match parseStrAux r2 with
                | none => none
                | some (acc, rest) => some (ch :: acc, rest)
      else if c.toNat < 0x20 then none
      else
        match parseStrAux r with
        | none => none
        | some (acc, rest) => some (c :: acc, rest)

/-- Decimal digit test. -/
def isDigitC (c : Char) : Bool := 48 ≤ c.toNat && c.toNat ≤ 57

/-- Value of a decimal digit character. -/
def digitVal (c : Char) : Nat := c.toNat - 48

/-- Character of a decimal digit value. -/
def digitChar (d : Nat) : Char := Char.ofNat (48 + d)

/-- Value of a big-endian decimal digit-character list. -/
def natDec (ds : List Char) : Nat :=
  ds.foldl (fun a c => 10 * a + digitVal c) 0

/-- Value of a big-endian decimal digit list. -/
def decVal (ds : List Nat) : Nat := ds.foldl (fun a d => 10 * a + d) 0

/-- Parse a run of leading digits as a natural number; `none` if the
input does not start with a digit. -/
def parseNumNat (l : List Char) : Option (Nat × List Char) :=
  if (l.takeWhile isDigitC).isEmpty then none
  else some (natDec (l.takeWhile isDigitC), l.dropWhile isDigitC)

/-- Parser modes: a single value, array elements, object members. -/
inductive PIn where
  | one (l : List Char)
  | many (l : List Char)
  | pairs (l : List Char)

/-- Parser results, matching the three modes. -/
inductive POut where
  | one (v : RVal) (r : List Char)
  | many (vs : List RVal) (r : List Char)
  | pairs (ps : List (String × RVal)) (r : List Char)

/-- The fuel-indexed recursive-descent JSON parser. -/
def pj : Nat → PIn → Option POut
  | 0, _ => none
  | f + 1, .one l =>
      match skipWs l with
      | [] => none
      | c :: r =>
          if c = '-' then
            match parseNumNat r with
            | none => none
            | some (n, rest) => some (.one (.vnum (-(n : Int))) rest)
          else if isDigitC c then
            match parseNumNat (c :: r) with
            | none => none
            | some (n, rest) => some (.one (.vnum (n : Int)) rest)
          else if c = 'n' then
            match r with
            | 'u' :: 'l' :: 'l' :: rest => some (.one .vnull rest)
            | _ => none
          else if c = 't' then
            match r with
            | 'r' :: 'u' :: 'e' :: rest => some (.one (.vbool true) rest)
            | _ => none
          else if c = 'f' then
            match r with
            | 'a' :: 'l' :: 's' :: 'e' :: rest => some (.one (.vbool false) rest)
            | _ => none
          else if c = '"' then
            match parseStrAux r with
            | none => none
            | some (cs, rest) => some (.one (.vstr (String.mk cs)) rest)
          else if c = '[' then
            match skipWs r with
            | [] => none
            | c2 :: r2 =>
                if c2 = ']' then some (.one (.varr []) r2)
                else
                  match pj f (.many (c2 :: r2)) with
                  | some (.many vs rest) => some (.one (.varr vs) rest)
                  | _ => none
          else if c = Char.ofNat 0x7B then
            match skipWs r with
            | [] => none
            | c2 :: r2 =>
                if c2 = Char.ofNat 0x7D then some (.one (.vobj []) r2)
                else
                  match pj f (.pairs (c2 :: r2)) with
                  | some (.pairs ps rest) => some (.one (.vobj ps) rest)
                  | _ => none
          else none
  | f + 1, .many l =>
      match pj f (.one l) with
      | some (.one v r) =>
          match skipWs r with
          | [] => none
          | c :: r2 =>
              if c = ',' then
                match pj f (.many r2) with
                | some (.many vs r3) => some (.many (v :: vs) r3)
                | _ => none
              else if c = ']' then some (.many [v] r2)
              else none
      | _ => none
  | f + 1, .pairs l =>
      match skipWs l with
      | [] => none
      | c :: r =>
          if c = '"' then
            match parseStrAux r with
            | none => none
            | some (k, r2) =>
                match skipWs r2 with
                | [] => none
                | c2 :: r3 =>
                    if c2 = ':' then
                      match pj f (.one r3) with
                      | some (.one v r4) =>
                          match skipWs r4 with
                          | [] => none
                          | c3 :: r5 =>
                              if c3 = ',' then
                                match pj f (.pairs r5) with
                                | some (.pairs ps r6) =>
                                    some (.pairs ((String.mk k, v) :: ps) r6)
                                | _ => none
                              else if c3 = Char.ofNat 0x7D then
                                some (.pairs [(String.mk k, v)] r5)
                              else none
                      | _ => none
                    else none
          else none

/-- Model of `JSON.parse` (restricted to integer numbers): parse one
value, then require only whitespace to follow. -/
def jsonParse (s : String) : Option RVal :=
  match pj (2 * s.length + 2) (.one s.data) with
  | some (.one v r) => if skipWs r = [] then some v else none
  | _ => none

/-- Model of `parseInt(s, 10)`: skip whitespace, optional sign,
leading digits; `NaN` (here `none`) if no digit follows. -/
def parseIntM (s : String) : Option Int :=
  match skipWs s.data with
  | '-' :: r =>
      if (r.takeWhile isDigitC).isEmpty then none
      else some (-(natDec (r.takeWhile isDigitC) : Int))
  | '+' :: r =>
      if (r.takeWhile isDigitC).isEmpty then none
      else some ((natDec (r.takeWhile isDigitC) : Int))
  | l =>
      if (l.takeWhile isDigitC).isEmpty then none
      else some ((natDec (l.takeWhile isDigitC) : Int))

/-- Model of `isLuaScriptError` as an optional projection: a value passes the
guard (`typeof value === "object"`, non-null, has an `error` property
of string type) exactly when this returns the reason.  Arrays are
objects without an `error` property; they never pass. -/
def getLuaErr : RVal → Option String
  | .vobj fs =>
      match List.lookup "error" fs with
      | some (.vstr e) => some e
      | _ => none
  | _ => none

/-- Model of `parseIncrementResult` from the atomic module. -/
def parseIncrementResult (result : RVal) : Except CryptoErr (Option Int) :=
  match result with
  | .vnull => .ok none
  | .vundef => .ok none
  | .vnum n => .ok (some n)
  | .vstr s =>
      match jsonParse s with
      | none =>
          match parseIntM s with
          | some n => .ok (some n)
          | none =>
              .error (.invalidResult
                "Invalid increment result: expected number or JSON")
      | some parsed =>
          match parsed with
          | .vnum n => .ok (some n)
          | _ =>
              match getLuaErr parsed with
              | some e => .error (.invalidResult ("Lua script error: " ++ e))
              | none =>
                  .error (.invalidResult
                    "Invalid increment result: expected number or error object")
  | other =>
      match getLuaErr other with
      | some e => .error (.invalidResult ("Lua script error: " ++ e))
      | none =>
          .error (.invalidResult
            "Invalid increment result: unexpected result type")

example : jsonParse "42" = some (.vnum 42) := rfl
example : jsonParse "-7" = some (.vnum (-7)) := rfl
example : jsonParse "\x7b\"error\":\"invalid_json\"\x7d" =
    some (.vobj [("error", .vstr "invalid_json")]) := rfl
example : jsonParse "[1, 2]" = some (.varr [.vnum 1, .vnum 2]) := rfl
example : jsonParse "null" = some .vnull := rfl
example : jsonParse "x" = none := rfl
example : parseIncrementResult (.vstr "42abc") = .ok (some 42) := rfl
example : parseIncrementResult (.vstr "\x7b\"error\":\"missing_arguments\"\x7d") =
    .error (.invalidResult "Lua script error: missing_arguments") := rfl
example : parseIncrementResult (.vbool true) =
    .error (.invalidResult "Invalid increment result: unexpected result type") := rfl

/-! ### Parser lemmas for C8 -/

theorem skipWs_cons_of_not_ws (c : Char) (r : List Char)
    (h : isJsonWs c = false) : skipWs (c :: r) = c :: r := by
  simp [skipWs, List.dropWhile_cons, h]

theorem takeWhile_all (p : Char → Bool) (l : List Char)
    (h : ∀ c ∈ l, p c = true) : l.takeWhile p = l := by
  induction l with
  | nil => rfl
  | cons a r ih =>
      rw [List.takeWhile_cons, h a (by simp), if_pos rfl,
        ih (fun c hc => h c (by simp [hc]))]

theorem dropWhile_all (p : Char → Bool) (l : List Char)
    (h : ∀ c ∈ l, p c = true) : l.dropWhile p = [] := by
  induction l with
  | nil => rfl
  | cons a r ih =>
      rw [List.dropWhile_cons, h a (by simp), if_pos rfl]
      exact ih (fun c hc => h c (by simp [hc]))

theorem digitChar_facts : ∀ d < 10, isDigitC (digitChar d) = true ∧
    digitVal (digitChar d) = d ∧ isJsonWs (digitChar d) = false ∧
    digitChar d ≠ '-' := by decide

theorem natDec_map_aux (ds : List Nat) (h : ∀ d ∈ ds, d < 10) :
    ∀ a : Nat, (ds.map digitChar).foldl (fun x c => 10 * x + digitVal c) a =
      ds.foldl (fun x d => 10 * x + d) a := by
  induction ds with
  | nil => intro a; rfl
  | cons d rest ih =>
      intro a
      rw [List.map_cons, List.foldl_cons, List.foldl_cons,
        (digitChar_facts d (h d (by simp))).2.1]
      exact ih (fun x hx => h x (by simp [hx])) _

theorem natDec_map (ds : List Nat) (h : ∀ d ∈ ds, d < 10) :
    natDec (ds.map digitChar) = decVal ds := by
  rw [natDec, decVal]
  exact natDec_map_aux ds h 0

theorem parseNumNat_digits (ds : List Nat) (hne : ds ≠ [])
    (h : ∀ d ∈ ds, d < 10) :
    parseNumNat (ds.map digitChar) = some (decVal ds, []) := by
  have hall : ∀ c ∈ ds.map digitChar, isDigitC c = true := by
    intro c hc
    rcases List.mem_map.mp hc with ⟨d, hd, rfl⟩
    exact (digitChar_facts d (h d hd)).1
  have hempty : (ds.map digitChar).isEmpty = false := by
    cases ds with
    | nil => exact absurd rfl hne
    | cons d rest => rfl
  rw [parseNumNat, takeWhile_all _ _ hall, hempty, dropWhile_all _ _ hall,
    natDec_map ds h]
  rfl

/-- The decimal string form of an integer: optional minus sign, then
the digit characters. -/
def decimalStr (neg : Bool) (ds : List Nat) : String :=
  String.mk ((if neg then ['-'] else []) ++ ds.map digitChar)

theorem pj_decimal_pos (f : Nat) (ds : List Nat) (hne : ds ≠ [])
    (h : ∀ d ∈ ds, d < 10) :
    pj (f + 1) (.one (ds.map digitChar)) =
      some (.one (.vnum (decVal ds)) []) := by
  rcases ds with _ | ⟨d0, drest⟩
  · exact absurd rfl hne
  · have h0 := digitChar_facts d0 (h d0 (by simp))
    rw [List.map_cons]
    simp only [pj, skipWs_cons_of_not_ws _ _ h0.2.2.1]
    rw [if_neg h0.2.2.2, if_pos h0.1, ← List.map_cons,
      parseNumNat_digits _ hne h]

theorem pj_decimal_neg (f : Nat) (ds : List Nat) (hne : ds ≠ [])
    (h : ∀ d ∈ ds, d < 10) :
    pj (f + 1) (.one ('-' :: ds.map digitChar)) =
      some (.one (.vnum (-(decVal ds : Int))) []) := by
  simp only [pj, skipWs_cons_of_not_ws '-' _ (by decide)]
  rw [if_pos trivial, parseNumNat_digits ds hne h]

theorem jsonParse_decimal (neg : Bool) (ds : List Nat) (hne : ds ≠ [])
    (h : ∀ d ∈ ds, d < 10) :
    jsonParse (decimalStr neg ds) =
      some (.vnum (if neg then -(decVal ds : Int) else (decVal ds : Int))) := by
  obtain ⟨f, hf⟩ : ∃ f, 2 * (decimalStr neg ds).length + 2 = f + 1 :=
    ⟨2 * (decimalStr neg ds).length + 1, by omega⟩
  cases neg
  · have hd : (decimalStr false ds).data = ds.map digitChar := rfl
    simp only [jsonParse, hd, hf, pj_decimal_pos f ds hne h]
    rfl
  · have hd : (decimalStr true ds).data = '-' :: ds.map digitChar := rfl
    simp only [jsonParse, hd, hf, pj_decimal_neg f ds hne h]
    rfl

theorem parseStrAux_plain (cs rest : List Char)
    (h : ∀ c ∈ cs, c ≠ '"' ∧ c ≠ '\\' ∧ 0x20 ≤ c.toNat) :
    parseStrAux (cs ++ '"' :: rest) = some (cs, rest) := by
  induction cs with
  | nil =>
      rw [List.nil_append, parseStrAux.eq_def]
      simp only [if_true]
  | cons c cs ih =>
      obtain ⟨h1, h2, h3⟩ := h c (by simp)
      rw [List.cons_append, parseStrAux.eq_def]
      simp only []
      rw [if_neg h1, if_neg h2, if_neg (by omega : ¬ c.toNat < 0x20),
        ih (fun x hx => h x (by simp [hx]))]

/-- The character list of the JSON encoding of `\x7berror: reason\x7d`
with a plain reason string. -/
def errJsonData (reason : String) : List Char :=
  Char.ofNat 0x7B :: '"' :: 'e' :: 'r' :: 'r' :: 'o' :: 'r' :: '"' :: ':' ::
    '"' :: (reason.data ++ ['"', Char.ofNat 0x7D])

/-- The JSON encoding of the protocol error object, as the Lua
scripts' `cjson.encode` produces it for a plain reason string. -/
def errJsonStr (reason : String) : String := String.mk (errJsonData reason)

theorem pj_errJson_val (g : Nat) (reason : String)
    (h : ∀ c ∈ reason.data, c ≠ '"' ∧ c ≠ '\\' ∧ 0x20 ≤ c.toNat) :
    pj (g + 1) (.one ('"' :: (reason.data ++ ['"', Char.ofNat 0x7D]))) =
      some (.one (.vstr reason) [Char.ofNat 0x7D]) := by
  have hval : parseStrAux (reason.data ++ '"' :: [Char.ofNat 0x7D]) =
      some (reason.data, [Char.ofNat 0x7D]) :=
    parseStrAux_plain reason.data [Char.ofNat 0x7D] h
  simp only [pj, skipWs_cons_of_not_ws '"' _ (by decide), if_true, hval]
  rfl

theorem pj_errJson_pairs (g : Nat) (reason : String)
    (h : ∀ c ∈ reason.data, c ≠ '"' ∧ c ≠ '\\' ∧ 0x20 ≤ c.toNat) :
    pj (g + 2) (.pairs ('"' :: 'e' :: 'r' :: 'r' :: 'o' :: 'r' :: '"' :: ':' ::
      '"' :: (reason.data ++ ['"', Char.ofNat 0x7D]))) =
      some (.pairs [("error", .vstr reason)] []) := by
  have hkey : parseStrAux ('e' :: 'r' :: 'r' :: 'o' :: 'r' :: '"' :: ':' ::
      '"' :: (reason.data ++ ['"', Char.ofNat 0x7D])) =
      some (['e', 'r', 'r', 'o', 'r'],
        ':' :: '"' :: (reason.data ++ ['"', Char.ofNat 0x7D])) :=
    parseStrAux_plain ['e', 'r', 'r', 'o', 'r'] _ (by decide)
  rw [show g + 2 = (g + 1) + 1 from rfl]
  generalize hgp : g + 1 = gp
  simp only [pj, skipWs_cons_of_not_ws '"' _ (by decide),
    skipWs_cons_of_not_ws ':' _ (by decide), if_true, hkey]
  rw [← hgp, pj_errJson_val g reason h]
  simp only [skipWs_cons_of_not_ws (Char.ofNat 0x7D) _ (by decide), if_true]
  rfl

theorem pj_errJson (f : Nat) (reason : String)
    (h : ∀ c ∈ reason.data, c ≠ '"' ∧ c ≠ '\\' ∧ 0x20 ≤ c.toNat) :
    pj (f + 3) (.one (errJsonData reason)) =
      some (.one (.vobj [("error", .vstr reason)]) []) := by
  rw [errJsonData, show f + 3 = (f + 2) + 1 from rfl]
  generalize hgp : f + 2 = gp
  simp only [pj, skipWs_cons_of_not_ws (Char.ofNat 0x7B) _ (by decide)]
  rw [if_neg (by decide), if_neg (by decide), if_neg (by decide),
    if_neg (by decide), if_neg (by decide), if_neg (by decide),
    if_neg (by decide), if_pos (by decide)]
  simp only [skipWs_cons_of_not_ws '"' _ (by decide)]
  rw [if_neg (by decide), ← hgp, pj_errJson_pairs f reason h]

theorem jsonParse_errJson (reason : String)
    (h : ∀ c ∈ reason.data, c ≠ '"' ∧ c ≠ '\\' ∧ 0x20 ≤ c.toNat) :
    jsonParse (errJsonStr reason) = some (.vobj [("error", .vstr reason)]) := by
  obtain ⟨f, hf⟩ : ∃ f, 2 * (errJsonStr reason).length + 2 = f + 3 := by
    have hdl : (errJsonStr reason).length = (errJsonData reason).length := rfl
    have hpos : 1 ≤ (errJsonData reason).length := by
      rw [errJsonData, List.length_cons]
      omega
    exact ⟨2 * (errJsonStr reason).length - 1, by omega⟩
  have hd : (errJsonStr reason).data = errJsonData reason := rfl
  simp only [jsonParse, hd, hf, pj_errJson f reason h]
  rfl

/-- A stored record: raw string value and remaining TTL. -/
structure Entry where
  val : String
  ttl : Option Nat
deriving DecidableEq, Repr

/-- The secret store. -/
def Store := String → Option Entry

/-- Redis `DEL key`. -/
def delKey (st : Store) (key : String) : Store :=
  fun k => if k = key then none else st k

/-- Redis `SET key value` with optional `EX`. -/
def setKey (st : Store) (key : String) (e : Entry) : Store :=
  fun k => if k = key then some e else st k

/-- What an `EVAL` of the decrement script can produce: `nil`, an
encoded value, or a Lua runtime error. -/
inductive ScriptOut where
  | nil
  | ret (v : RVal)
  | luaError

/-- Lua indexing `secret.viewsRemaining` on a decoded cjson value:
tables (objects and arrays) and strings can be indexed (arrays and
strings yield `nil` for a string key); indexing a number, boolean or
the null sentinel is a runtime error (`none`). -/
def indexField : RVal → String → Option (Option RVal)
  | .vobj fs, k => some (List.lookup k fs)
  | .varr _, _ => some none
  | .vstr _, _ => some none
  | _, _ => none

/-- Lua table field assignment on an association list. -/
def setField (fs : List (String × RVal)) (k : String) (v : RVal) :
    List (String × RVal) :=
  fs.map (fun p => if p.1 = k then (k, v) else p)

/-- Lua assignment of `secret.viewsRemaining` on a decoded object. -/
def setViews : RVal → Int → RVal
  | .vobj fs, v => .vobj (setField fs "viewsRemaining" (.vnum v))
  | other, _ => other

/-- The Lua table `\x7bsecret = secret, burned = b\x7d` the script encodes. -/
def decResult (secret : RVal) (burned : Bool) : RVal :=
  .vobj [("secret", secret), ("burned", .vbool burned)]

/-- The Lua table `\x7berror = e\x7d` the scripts encode. -/
def errObj (e : String) : RVal := .vobj [("error", .vstr e)]

/-- One escaped character of a cjson string encoding. -/
def jsonEncodeStrChar (c : Char) : List Char :=
  if c = '"' then ['\\', '"']
  else if c = '\\' then ['\\', '\\']
  else if c = Char.ofNat 8 then ['\\', 'b']
  else if c = Char.ofNat 9 then ['\\', 't']
  else if c = Char.ofNat 10 then ['\\', 'n']
  else if c = Char.ofNat 12 then ['\\', 'f']
  else if c = Char.ofNat 13 then ['\\', 'r']
  else [c]

/-- cjson encoding of a string. -/
def jsonEncodeStr (s : String) : String :=
  String.mk ('"' :: s.data.foldr (fun c acc => jsonEncodeStrChar c ++ acc) ['"'])

/-- Comma-separated concatenation. -/
def commaSep : List String → String
  | [] => ""
  | [x] => x
  | x :: rest => x ++ "," ++ commaSep rest

mutual

/-- Nesting depth of a value (at least 1), an encoding fuel bound. -/
def rvalDepth : RVal → Nat
  | .varr l => 1 + rvalDepthList l
  | .vobj fs => 1 + rvalDepthFields fs
  | _ => 1

/-- Maximum depth of a list of values. -/
def rvalDepthList : List RVal → Nat
  | [] => 0
  | v :: r => max (rvalDepth v) (rvalDepthList r)

/-- Maximum depth of a list of fields. -/
def rvalDepthFields : List (String × RVal) → Nat
  | [] => 0
  | p :: r => max (rvalDepth p.2) (rvalDepthFields r)

end

/-- Fuel-indexed cjson encoding; fuel bounds the nesting depth, and
`rvalDepth` always suffices. -/
def jsonEncodeF : Nat → RVal → String
  | 0, _ => ""
  | _ + 1, .vnull => "null"
  | _ + 1, .vundef => "null"
  | _ + 1, .vbool b => if b then "true" else "false"
  | _ + 1, .vnum n => toString n
  | _ + 1, .vstr s => jsonEncodeStr s
  | f + 1, .varr l => "[" ++ commaSep (l.map (jsonEncodeF f)) ++ "]"
  | f + 1, .vobj fs =>
      "\x7b" ++
        commaSep (fs.map (fun p => jsonEncodeStr p.1 ++ ":" ++ jsonEncodeF f p.2))
        ++ "\x7d"

/-- Model of `cjson.encode`. -/
def jsonEncode (v : RVal) : String := jsonEncodeF (rvalDepth v) v

/-- The script's TTL preservation: `SET ... 'EX' ttl` when the read
TTL is positive, plain `SET` (no expiry) otherwise. -/
def preservedTtl : Option Nat → Option Nat
  | some t => if 0 < t then some t else none
  | none => none

/-- Model of `ATOMIC_DECREMENT_SCRIPT` as one atomic transition: read the
record (absent ⇒ nil), `pcall(cjson.decode, ·)` (failure ⇒
`invalid_json`), check `viewsRemaining` is a number (else
`invalid_viewsRemaining_type`), decrement; on `<= 0` delete the key
and return the record clamped to 0 with `burned = true`, otherwise
rewrite with the preserved TTL and return `burned = false`. -/
def atomicDecrement (st : Store) (key : String) : Store × ScriptOut :=
  match st key with
  | none => (st, .nil)
  | some entry =>
      match jsonParse entry.val with
      | none => (st, .ret (errObj "invalid_json"))
      | some secret =>
          match indexField secret "viewsRemaining" with
          | none => (st, .luaError)
          | some fv =>
              match fv with
              | some (.vnum v) =>
                  if v - 1 ≤ 0 then
                    (delKey st key, .ret (decResult (setViews secret 0) true))
                  else
                    (setKey st key
                      ⟨jsonEncode (setViews secret (v - 1)),
                        preservedTtl entry.ttl⟩,
                     .ret (decResult (setViews secret (v - 1)) false))
              | _ => (st, .ret (errObj "invalid_viewsRemaining_type"))

/-- A rate-limit counter entry: the count and its expiry window. -/
structure CtrEntry where
  count : Int
  ttl : Option Int
deriving DecidableEq, Repr

/-- The counter store. -/
def CtrStore := String → Option CtrEntry

/-- Redis `SET`/`INCR`/`EXPIRE` result on the counter store. -/
def setCtr (st : CtrStore) (key : String) (e : CtrEntry) : CtrStore :=
  fun k => if k = key then some e else st k

/-- What the increment script returns: an encoded error object or an
integer. -/
inductive IncOut where
  | err (e : String)
  | num (n : Int)
deriving DecidableEq, Repr

/-- Model of `ATOMIC_INCREMENT_WITH_LIMIT_SCRIPT` as one atomic transition.
The two `ARGV` values arrive through `tonumber`, so a missing or
non-numeric argument is `none`.  Validation first (`missing_arguments`
/ `invalid_arguments`), then: existing count at or above the limit ⇒
`-1` with no mutation; otherwise `INCR` (which preserves any TTL) and
`EXPIRE` exactly when the new count is 1. -/
def atomicIncrement (st : CtrStore) (key : String)
    (maxCount expireSeconds : Option Int) : CtrStore × IncOut :=
  match maxCount, expireSeconds with
  | none, _ => (st, .err "missing_arguments")
  | some _, none => (st, .err "missing_arguments")
  | some m, some e =>
      if m ≤ 0 ∨ e ≤ 0 then (st, .err "invalid_arguments")
      else
        match st key with
        | some c =>
            if m ≤ c.count then (st, .num (-1))
            else
              (setCtr st key
                ⟨c.count + 1, if c.count + 1 = 1 then some e else c.ttl⟩,
               .num (c.count + 1))
        | none => (setCtr st key ⟨1, some e⟩, .num 1)

/-! ### Decrement script lemmas and claims -/

theorem decrement_absent (st : Store) (key : String) (h : st key = none) :
    atomicDecrement st key = (st, .nil) := by
  simp only [atomicDecrement, h]

theorem decrement_burn (st : Store) (key : String) (entry : Entry)
    (fs : List (String × RVal)) (v : Int)
    (hst : st key = some entry) (hp : jsonParse entry.val = some (.vobj fs))
    (hl : List.lookup "viewsRemaining" fs = some (.vnum v)) (hv : v - 1 ≤ 0) :
    atomicDecrement st key =
      (delKey st key,
       .ret (decResult (.vobj (setField fs "viewsRemaining" (.vnum 0))) true)) := by
  simp only [atomicDecrement, hst, hp, indexField, hl, if_pos hv, setViews]

theorem decrement_step (st : Store) (key : String) (entry : Entry)
    (fs : List (String × RVal)) (v : Int)
    (hst : st key = some entry) (hp : jsonParse entry.val = some (.vobj fs))
    (hl : List.lookup "viewsRemaining" fs = some (.vnum v)) (hv : 0 < v - 1) :
    atomicDecrement st key =
      (setKey st key
        ⟨jsonEncode (.vobj (setField fs "viewsRemaining" (.vnum (v - 1)))),
          preservedTtl entry.ttl⟩,
       .ret (decResult (.vobj (setField fs "viewsRemaining" (.vnum (v - 1))))
         false)) := by
  simp only [atomicDecrement, hst, hp, indexField, hl,
    if_neg (by omega : ¬ v - 1 ≤ 0), setViews]

/-- Claim C2: the decrement transaction on one key returns nil when
the record is absent; when the record is present with a numeric
`viewsRemaining`, it decrements it by exactly 1 and then either (a)
deletes the record and returns the record with `viewsRemaining` set to
0 and `burned = true` when the decremented value is `<= 0`, or (b)
rewrites the record with the decremented value (re-encoded, TTL
preserved) and returns the updated record with `burned = false`. -/
theorem atomicDecrement_spec (st : Store) (key : String) :
    (st key = none → atomicDecrement st key = (st, .nil)) ∧
    (∀ entry fs v, st key = some entry →
      jsonParse entry.val = some (.vobj fs) →
      List.lookup "viewsRemaining" fs = some (.vnum v) →
      ((v - 1 ≤ 0 →
        atomicDecrement st key =
          (delKey st key,
           .ret (decResult (.vobj (setField fs "viewsRemaining" (.vnum 0)))
             true))) ∧
       (0 < v - 1 →
        atomicDecrement st key =
          (setKey st key
            ⟨jsonEncode (.vobj (setField fs "viewsRemaining" (.vnum (v - 1)))),
              preservedTtl entry.ttl⟩,
           .ret (decResult
             (.vobj (setField fs "viewsRemaining" (.vnum (v - 1)))) false))))) :=
  ⟨decrement_absent st key,
   fun entry fs v hst hp hl =>
     ⟨fun hv => decrement_burn st key entry fs v hst hp hl hv,
      fun hv => decrement_step st key entry fs v hst hp hl hv⟩⟩

/-- Claim C3: on a present, well-formed record the transaction returns
`burned = true` exactly when it deleted the record in that same
transaction; consequently, from `viewsRemaining = 1`, one decrement
burns and removes the record, and a second decrement on the same key
returns "not found". -/
theorem atomicDecrement_burn_iff :
    (∀ (st : Store) (key : String) (entry : Entry) fs v,
      st key = some entry → jsonParse entry.val = some (.vobj fs) →
      List.lookup "viewsRemaining" fs = some (.vnum v) →
      ((∃ s, (atomicDecrement st key).2 = .ret (decResult s true)) ↔
        (atomicDecrement st key).1 key = none)) ∧
    (∀ (st : Store) (key : String) (entry : Entry) fs,
      st key = some entry → jsonParse entry.val = some (.vobj fs) →
      List.lookup "viewsRemaining" fs = some (.vnum 1) →
      (atomicDecrement st key).2 =
        .ret (decResult (.vobj (setField fs "viewsRemaining" (.vnum 0))) true) ∧
      (atomicDecrement st key).1 key = none ∧
      atomicDecrement (atomicDecrement st key).1 key =
        ((atomicDecrement st key).1, .nil)) := by
  constructor
  · intro st key entry fs v hst hp hl
    by_cases hv : v - 1 ≤ 0
    · rw [decrement_burn st key entry fs v hst hp hl hv]
      constructor
      · intro _
        simp [delKey]
      · intro _
        exact ⟨_, rfl⟩
    · rw [decrement_step st key entry fs v hst hp hl (by omega)]
      constructor
      · rintro ⟨s, hs⟩
        exfalso
        simp [decResult] at hs
      · intro hk
        exfalso
        simp [setKey] at hk
  · intro st key entry fs hst hp hl
    have hb := decrement_burn st key entry fs 1 hst hp hl (by omega)
    refine ⟨by rw [hb], by rw [hb]; simp [delKey], ?_⟩
    rw [hb]
    exact decrement_absent _ _ (by simp [delKey])

/-- Claim C10: a present record whose numeric `viewsRemaining` is
already 0 or negative burns immediately: the transaction deletes the
record and returns it clamped to 0 with `burned = true`, rather than
treating the out-of-range value as a data error. -/
theorem atomicDecrement_nonpositive_burns (st : Store) (key : String)
    (entry : Entry) (fs : List (String × RVal)) (v : Int)
    (hst : st key = some entry) (hp : jsonParse entry.val = some (.vobj fs))
    (hl : List.lookup "viewsRemaining" fs = some (.vnum v)) (hv : v ≤ 0) :
    atomicDecrement st key =
      (delKey st key,
       .ret (decResult (.vobj (setField fs "viewsRemaining" (.vnum 0))) true)) ∧
    (atomicDecrement st key).1 key = none := by
  have hb := decrement_burn st key entry fs v hst hp hl (by omega)
  exact ⟨hb, by rw [hb]; simp [delKey]⟩

/-- Claim C5: a non-terminal decrement (decremented value still
positive) rewrites the record preserving the pre-existing remaining
TTL exactly — neither reset nor removed — and rewrites without an
expiry when the record had none. -/
theorem atomicDecrement_ttl_preservation (st : Store) (key : String)
    (entry : Entry) (fs : List (String × RVal)) (v : Int)
    (hst : st key = some entry) (hp : jsonParse entry.val = some (.vobj fs))
    (hl : List.lookup "viewsRemaining" fs = some (.vnum v)) (hv : 0 < v - 1) :
    (∀ t, entry.ttl = some t → 0 < t →
      (atomicDecrement st key).1 key =
        some ⟨jsonEncode (.vobj (setField fs "viewsRemaining" (.vnum (v - 1)))),
          some t⟩) ∧
    (entry.ttl = none →
      (atomicDecrement st key).1 key =
        some ⟨jsonEncode (.vobj (setField fs "viewsRemaining" (.vnum (v - 1)))),
          none⟩) := by
  have hs := decrement_step st key entry fs v hst hp hl hv
  constructor
  · intro t ht hpos
    rw [hs]
    simp [setKey, preservedTtl, ht, hpos]
  · intro ht
    rw [hs]
    simp [setKey, preservedTtl, ht]

/-- Claim C4: the increment-with-limit transaction returns
`missing_arguments` when either numeric argument is absent,
`invalid_arguments` when either is not strictly positive, the sentinel
`-1` with the store untouched when the stored count is at or above the
maximum, and otherwise increments and returns the new count, setting
the key's expiry to the window exactly when the new count is 1 and
leaving any existing expiry untouched otherwise. -/
theorem atomicIncrement_spec (st : CtrStore) (key : String)
    (maxc exps : Option Int) :
    ((maxc = none ∨ exps = none) →
      atomicIncrement st key maxc exps = (st, .err "missing_arguments")) ∧
    (∀ m e, maxc = some m → exps = some e → (m ≤ 0 ∨ e ≤ 0) →
      atomicIncrement st key maxc exps = (st, .err "invalid_arguments")) ∧
    (∀ m e c, maxc = some m → exps = some e → 0 < m → 0 < e →
      st key = some c → m ≤ c.count →
      atomicIncrement st key maxc exps = (st, .num (-1))) ∧
    (∀ m e c, maxc = some m → exps = some e → 0 < m → 0 < e →
      st key = some c → c.count < m →
      atomicIncrement st key maxc exps =
        (setCtr st key
          ⟨c.count + 1, if c.count + 1 = 1 then some e else c.ttl⟩,
         .num (c.count + 1))) ∧
    (∀ m e, maxc = some m → exps = some e → 0 < m → 0 < e → st key = none →
      atomicIncrement st key maxc exps =
        (setCtr st key ⟨1, some e⟩, .num 1)) := by
  refine ⟨?_, ?_, ?_, ?_, ?_⟩
  · rintro (rfl | rfl)
    · rfl
    · rcases maxc with _ | m <;> rfl
  · intro m e hm he hme
    subst hm
    subst he
    simp only [atomicIncrement, if_pos hme]
  · intro m e c hm he h0m h0e hc hge
    subst hm
    subst he
    simp only [atomicIncrement, if_neg (by omega : ¬ (m ≤ 0 ∨ e ≤ 0)), hc,
      if_pos hge]
  · intro m e c hm he h0m h0e hc hlt
    subst hm
    subst he
    simp only [atomicIncrement, if_neg (by omega : ¬ (m ≤ 0 ∨ e ≤ 0)), hc,
      if_neg (by omega : ¬ m ≤ c.count)]
  · intro m e hm he h0m h0e hc
    subst hm
    subst he
    simp only [atomicIncrement, if_neg (by omega : ¬ (m ≤ 0 ∨ e ≤ 0)), hc]

/-! ### Concrete stores used by the script witnesses -/

/-- A store holding a record with one view left and a 60 s TTL. -/
def decStoreOne : Store :=
  fun k =>
    if k = "secret:k" then some ⟨"\x7b\"viewsRemaining\":1\x7d", some 60⟩
    else none

/-- A store holding a record with two views left and a 99 s TTL. -/
def decStoreTwo : Store :=
  fun k =>
    if k = "secret:k" then some ⟨"\x7b\"viewsRemaining\":2\x7d", some 99⟩
    else none

/-- A store holding a record already at zero views, with no expiry. -/
def decStoreZero : Store :=
  fun k =>
    if k = "secret:k" then some ⟨"\x7b\"viewsRemaining\":0\x7d", none⟩
    else none

/-- An empty counter store. -/
def ctrEmpty : CtrStore := fun _ => none

/-- Witness for C2: a concrete non-terminal decrement. -/
theorem atomicDecrement_spec_witness :
    atomicDecrement decStoreTwo "secret:k" =
      (setKey decStoreTwo "secret:k"
        ⟨jsonEncode (.vobj (setField [("viewsRemaining", .vnum 2)]
            "viewsRemaining" (.vnum 1))), some 99⟩,
       .ret (decResult (.vobj (setField [("viewsRemaining", .vnum 2)]
         "viewsRemaining" (.vnum 1))) false)) :=
  ((atomicDecrement_spec decStoreTwo "secret:k").2
    ⟨"\x7b\"viewsRemaining\":2\x7d", some 99⟩ [("viewsRemaining", .vnum 2)] 2
    rfl rfl rfl).2 (by decide)

/-- Witness for C3: a concrete burn from one view, and the following
decrement finds nothing. -/
theorem atomicDecrement_burn_iff_witness :
    (atomicDecrement decStoreOne "secret:k").2 =
      .ret (decResult (.vobj (setField [("viewsRemaining", .vnum 1)]
        "viewsRemaining" (.vnum 0))) true) ∧
    (atomicDecrement decStoreOne "secret:k").1 "secret:k" = none ∧
    atomicDecrement (atomicDecrement decStoreOne "secret:k").1 "secret:k" =
      ((atomicDecrement decStoreOne "secret:k").1, .nil) :=
  atomicDecrement_burn_iff.2 decStoreOne "secret:k"
    ⟨"\x7b\"viewsRemaining\":1\x7d", some 60⟩ [("viewsRemaining", .vnum 1)]
    rfl rfl rfl

/-- Witness for C10: a record already at zero burns immediately. -/
theorem atomicDecrement_nonpositive_burns_witness :
    atomicDecrement decStoreZero "secret:k" =
      (delKey decStoreZero "secret:k",
       .ret (decResult (.vobj (setField [("viewsRemaining", .vnum 0)]
         "viewsRemaining" (.vnum 0))) true)) ∧
    (atomicDecrement decStoreZero "secret:k").1 "secret:k" = none :=
  atomicDecrement_nonpositive_burns decStoreZero "secret:k"
    ⟨"\x7b\"viewsRemaining\":0\x7d", none⟩ [("viewsRemaining", .vnum 0)] 0
    rfl rfl rfl (by decide)

/-- Witness for C5: the 99 s TTL survives a non-terminal decrement. -/
theorem atomicDecrement_ttl_preservation_witness :
    (atomicDecrement decStoreTwo "secret:k").1 "secret:k" =
      some ⟨jsonEncode (.vobj (setField [("viewsRemaining", .vnum 2)]
        "viewsRemaining" (.vnum 1))), some 99⟩ :=
  (atomicDecrement_ttl_preservation decStoreTwo "secret:k"
    ⟨"\x7b\"viewsRemaining\":2\x7d", some 99⟩ [("viewsRemaining", .vnum 2)] 2
    rfl rfl rfl (by decide)).1 99 rfl (by decide)

/-- Witness for C4: first increment creates the counter with its
expiry; a missing argument yields the protocol error. -/
theorem atomicIncrement_spec_witness :
    atomicIncrement ctrEmpty "rl" (some 3) (some 60) =
      (setCtr ctrEmpty "rl" ⟨1, some 60⟩, .num 1) ∧
    atomicIncrement ctrEmpty "rl" none (some 60) =
      (ctrEmpty, .err "missing_arguments") :=
  ⟨(atomicIncrement_spec ctrEmpty "rl" (some 3) (some 60)).2.2.2.2 3 60
      rfl rfl (by decide) (by decide) rfl,
   (atomicIncrement_spec ctrEmpty "rl" none (some 60)).1 (Or.inl rfl)⟩

end Blindrop
